import Mathlib

/-!
Verification of the people-search extraction and matching pipeline
(src/app/api/search/route.ts and the earlier route revisions).

The JavaScript string operations are embedded as executable Lean
functions over `String` (a list of characters).  JS strings here are
ASCII in every relevant input, so `Char.toLower` models
`String.prototype.toLowerCase`, and the character class `\s` is modelled
by the six ASCII whitespace characters JS regexes treat as whitespace.
Each regex of the source is embedded as a dedicated matcher whose
greedy/backtracking behaviour is derived from the concrete pattern; the
derivation is documented at each matcher.
-/

/-- Whitespace test modelling the JS regex class `\s` on ASCII input. -/
def isWsChar (c : Char) : Bool :=
  c == ' ' || c == '\t' || c == '\n' || c == '\r' || c == '\x0b' || c == '\x0c'

/-- Model of `String.prototype.toLowerCase` (ASCII). -/
def jsLower (s : String) : String := ⟨s.data.map Char.toLower⟩

/-- Scan for the first index at which `needle` occurs in the remaining list. -/
def firstSubIdxGo (needle : List Char) : List Char → Nat → Option Nat
  | [], i => if needle.isPrefixOf [] then some i else none
  | c :: rest, i =>
    if needle.isPrefixOf (c :: rest) then some i else firstSubIdxGo needle rest (i + 1)

/-- Model of `String.prototype.indexOf` restricted to found/not-found and index. -/
def firstSubIdx (hay needle : List Char) : Option Nat := firstSubIdxGo needle hay 0

/-- Model of `String.prototype.includes`. -/
def jsIncludes (hay needle : String) : Bool := (firstSubIdx hay.data needle.data).isSome

/-- Drop the longest suffix whose characters satisfy `p`. -/
def dropTrailingWhile (p : Char → Bool) (l : List Char) : List Char :=
  (l.reverse.dropWhile p).reverse

/-- Model of `String.prototype.trim` on a character list. -/
def jsTrimL (l : List Char) : List Char :=
  dropTrailingWhile isWsChar (l.dropWhile isWsChar)

/-- Model of `String.prototype.trim`. -/
def jsTrimS (s : String) : String := ⟨jsTrimL s.data⟩

/-- Replace each maximal whitespace run by a single space; the flag records
whether the previous character was part of a whitespace run. -/
def collapseGo : Bool → List Char → List Char
  | _, [] => []
  | prevWs, c :: rest =>
    if isWsChar c then
      (if prevWs then collapseGo true rest else ' ' :: collapseGo true rest)
    else c :: collapseGo false rest

/-- Model of `.replace(/\s+/g, ' ')`. -/
def collapseWsS (s : String) : String := ⟨collapseGo false s.data⟩

/-- Split on maximal whitespace runs, keeping boundary empty pieces, as
`String.prototype.split(/\s+/)` does. -/
def splitWsGo : Bool → List Char → List Char → List (List Char)
  | _, cur, [] => [cur.reverse]
  | inWs, cur, c :: rest =>
    if isWsChar c then
      (if inWs then splitWsGo true cur rest else cur.reverse :: splitWsGo true [] rest)
    else splitWsGo false (c :: cur) rest

/-- Model of `String.prototype.split(/\s+/)`. -/
def jsSplitWs (s : String) : List String := (splitWsGo false [] s.data).map String.mk

/-- Split on a literal separator, left to right and non-overlapping, as
`String.prototype.split(sep)` does; `skip` counts separator characters
already consumed. -/
def splitLitGo (needle : List Char) : Nat → List Char → List Char → List (List Char)
  | _ + 1, cur, [] => [cur.reverse]
  | skip + 1, cur, _ :: rest => splitLitGo needle skip cur rest
  | 0, cur, [] => [cur.reverse]
  | 0, cur, c :: rest =>
    if needle.isPrefixOf (c :: rest) then
      cur.reverse :: splitLitGo needle (needle.length - 1) [] rest
    else splitLitGo needle 0 (c :: cur) rest

/-- Model of `String.prototype.split` on a literal separator string. -/
def jsSplitLit (s sep : String) : List String :=
  (splitLitGo sep.data 0 [] s.data).map String.mk

/-- Case-insensitive test that `lit` (given in lowercase) starts the list. -/
def ciStarts (lit : List Char) (l : List Char) : Bool :=
  lit.isPrefixOf ((l.take lit.length).map Char.toLower)

/-- Model of the JS falsy-or on strings: `a || b`. -/
def jsOrS (a b : String) : String := if a = "" then b else a

/-- Profile record as returned by `extractProfileData` in
src/app/api/search/route.ts (that revision carries no summary field). -/
structure Profile where
  id : String
  name : String
  title : String
  company : String
  linkedinUrl : String
deriving DecidableEq, Repr

/-- Search result as consumed by the route: page title, body text and
highlight snippets from the search provider.  Absent JS fields are
modelled by the empty string / empty list. -/
structure SearchResult where
  id : String
  url : String
  title : String
  text : String
  highlights : List String
deriving DecidableEq, Repr

/-- Embedding of `isCurrentEmployee` (src/app/api/search/route.ts, lines
357-381): lowercase both companies, reject the empty and sentinel profile
company, then test containment in either direction and equality. -/
def isCurrentEmployee (profile : Profile) (searchCompany : String) : Bool :=
  let companyLower := jsLower searchCompany
  let profileCompany := jsLower profile.company
  if profileCompany = "" ∨ profileCompany = "not specified" then false
  else if jsIncludes profileCompany companyLower ∨ jsIncludes companyLower profileCompany then
    true
  else if profileCompany = companyLower then true
  else false

/-- Concrete profile used by the C1 example conjuncts. -/
def profileOpenAIResearch : Profile :=
  { id := "p1", name := "A", title := "T", company := "OpenAI Research",
    linkedinUrl := "https://linkedin.com/in/a" }

/-- Concrete profile with the sentinel company. -/
def profileNotSpecified : Profile :=
  { id := "p2", name := "B", title := "T", company := "Not specified",
    linkedinUrl := "https://linkedin.com/in/b" }

/-- Character class `[#•·\-\s]` of the leading-symbol strip in
`cleanExtractedText`. -/
def leadSymClass (c : Char) : Bool :=
  c == '#' || c == '•' || c == '·' || c == '-' || isWsChar c

/-- Model of `.replace(/\[([^\]]+)\]/g, '$1')`: each bracket pair with a
nonempty bracket-free body is replaced by its body, scanning left to
right; `skip` counts characters of a replaced match still to consume. -/
def bracketGo : Nat → List Char → List Char
  | _ + 1, [] => []
  | skip + 1, _ :: rest => bracketGo skip rest
  | 0, [] => []
  | 0, c :: rest =>
    if c == '[' then
      let content := rest.takeWhile (fun d => d != ']')
      if content.length != 0 && content.length < rest.length then
        content ++ bracketGo (content.length + 1) rest
      else c :: bracketGo 0 rest
    else c :: bracketGo 0 rest

/-- Model of `.replace(/<[^>]+>/g, '')`. -/
def tagGo : Nat → List Char → List Char
  | _ + 1, [] => []
  | skip + 1, _ :: rest => tagGo skip rest
  | 0, [] => []
  | 0, c :: rest =>
    if c == '<' then
      let content := rest.takeWhile (fun d => d != '>')
      if content.length != 0 && content.length < rest.length then
        tagGo (content.length + 1) rest
      else c :: tagGo 0 rest
    else c :: tagGo 0 rest

/-- Remove every case-insensitive occurrence of one of the literal strings,
scanning left to right (models a global replace of an alternation of
literals by the empty string); the literals are given lowercase. -/
def removeLitGo (lits : List (List Char)) : Nat → List Char → List Char
  | _ + 1, [] => []
  | skip + 1, _ :: rest => removeLitGo lits skip rest
  | 0, [] => []
  | 0, c :: rest =>
    match lits.find? (fun lit => ciStarts lit (c :: rest)) with
    | some lit => removeLitGo lits (lit.length - 1) rest
    | none => c :: removeLitGo lits 0 rest

/-- Model of `.replace(/^(?:at|@)\s+/i, '')`: the alternation is decided by
the first characters, and the whitespace run after it is taken maximally
(no backtracking can help because the run is followed by the match end). -/
def stripLeadAtSign (l : List Char) : List Char :=
  if ciStarts ['a', 't'] l then
    let rest := l.drop 2
    let ws := rest.takeWhile isWsChar
    if ws.length != 0 then rest.drop ws.length else l
  else if l.headD ' ' == '@' then
    let rest := l.drop 1
    let ws := rest.takeWhile isWsChar
    if ws.length != 0 then rest.drop ws.length else l
  else l

/-- Model of `.replace(/\s+(?:at|@)\s*$/i, '')`, computed from the end of
the string: strip the final whitespace run, require `at` or `@`, require a
nonempty whitespace run before it, and remove from that run on.  The
leftmost-match rule of `replace` removes the whole run because the greedy
`\s+` starts at the earliest whitespace position of the run. -/
def stripTrailAtSign (l : List Char) : List Char :=
  let rl := l.reverse
  let r1 := rl.dropWhile isWsChar
  let core :=
    if ciStarts ['t', 'a'] r1 then some (r1.drop 2)
    else if r1.headD ' ' == '@' then some (r1.drop 1)
    else none
  match core with
  | some r2 =>
    let ws := r2.takeWhile isWsChar
    if ws.length != 0 then (r2.drop ws.length).reverse else l
  | none => l

/-- Embedding of `cleanExtractedText` (src/app/api/search/route.ts, lines
384-395): the eight chained replaces plus the final trim. -/
def cleanExtractedText (text : String) : String :=
  let l1 := text.data.dropWhile leadSymClass
  let l2 := bracketGo 0 l1
  let l3 := tagGo 0 l2
  let l4 := removeLitGo ["(current)".data] 0 l3
  let l5 := removeLitGo ["(full-time)".data, "(full time)".data] 0 l4
  let l6 := stripLeadAtSign l5
  let l7 := stripTrailAtSign l6
  jsTrimS (collapseWsS ⟨l7⟩)

/-- Character class `[\s\-•·:]` of the final affix strip in `cleanJobTitle`. -/
def trailJunkClass (c : Char) : Bool :=
  isWsChar c || c == '-' || c == '•' || c == '·' || c == ':'

/-- Character class `[a-zA-Z\s.]` of the name-is strip in `cleanJobTitle`. -/
def nameIsClass (c : Char) : Bool := c.isAlpha || isWsChar c || c == '.'

/-- Attempt of `/^[a-zA-Z\s\.]+\s+is\s+/i` with exactly `k` characters
consumed by the leading class run; the two inner `\s+` runs are taken
maximally because the following literal starts with a letter. -/
def stripNameIsTry (l : List Char) (k : Nat) : Option (List Char) :=
  let t := l.drop k
  let ws1 := t.takeWhile isWsChar
  if ws1.length == 0 then none
  else
    let t2 := t.drop ws1.length
    if ciStarts ['i', 's'] t2 then
      let t3 := t2.drop 2
      let ws2 := t3.takeWhile isWsChar
      if ws2.length == 0 then none else some (t3.drop ws2.length)
    else none

/-- Model of `.replace(/^[a-zA-Z\s\.]+\s+is\s+/i, '')`: the greedy class run
backtracks from its maximal length, so the successful attempt with the
largest `k` wins. -/
def stripNameIs (l : List Char) : List Char :=
  let pmax := (l.takeWhile nameIsClass).length
  match (List.range pmax).findSome? (fun j => stripNameIsTry l (pmax - j)) with
  | some rest => rest
  | none => l

/-- Model of `.replace(/^is\s+/i, '')`. -/
def stripLeadIs (l : List Char) : List Char :=
  if ciStarts ['i', 's'] l then
    let t := l.drop 2
    let ws := t.takeWhile isWsChar
    if ws.length == 0 then l else t.drop ws.length
  else l

/-- Model of `String.prototype.startsWith`. -/
def startsWithStr (s pre : String) : Bool := pre.data.isPrefixOf s.data

/-- Embedding of `cleanJobTitle` (src/app/api/search/route.ts, lines
397-432): strip a `Name - Title` head, a `name is` head, duplicated name
heads, a leading `is`, then affix junk; fall back to the argument when the
result is empty. -/
def cleanJobTitle (title name : String) : String :=
  let cleaned0 := title
  let cleaned1 :=
    if jsIncludes cleaned0 " - " then
      let last := (jsSplitLit cleaned0 " - ").getLastD cleaned0
      if last = "" then cleaned0 else last
    else cleaned0
  let cleaned2 := String.mk (stripNameIs cleaned1.data)
  let cleaned3 :=
    if name ≠ "" ∧ name ≠ "Unknown" then
      let nameLower := jsLower name
      if startsWithStr (jsLower cleaned2) nameLower then
        let ca := jsTrimS ⟨cleaned2.data.drop name.length⟩
        let cb :=
          if startsWithStr (jsLower ca) nameLower then jsTrimS ⟨ca.data.drop name.length⟩
          else ca
        String.mk (stripLeadIs cb.data)
      else cleaned2
    else cleaned2
  let cleaned4 := String.mk (stripLeadIs cleaned3.data)
  let cleaned5 := jsTrimS ⟨dropTrailingWhile trailJunkClass (cleaned4.data.dropWhile trailJunkClass)⟩
  if cleaned5 = "" then title else cleaned5

/-- Dot-free tail test for `.*$` (the JS dot does not match line
terminators, and `$` only matches at the very end, so the suffix may not
contain a newline). -/
def noNl (l : List Char) : Bool := l.all (fun c => c != '\n' && c != '\r')

/-- Continuation test of `/\s*[\|•]\s*(LinkedIn|Professional Profile).*$/i`
after the pipe or bullet character. -/
def linkSuffixOk (rest : List Char) : Bool :=
  let r := rest.dropWhile isWsChar
  (ciStarts "linkedin".data r && noNl (r.drop 8)) ||
  (ciStarts "professional profile".data r && noNl (r.drop 20))

/-- Scan of the suffix-strip replace: `acc` holds (reversed) committed
output, `pend` the (reversed) whitespace run directly before the current
position; a successful pipe or bullet match removes the pending run too,
because the leading greedy `\s*` of the pattern starts the match at the
beginning of that run. -/
def stripSuffixScan : List Char → List Char → List Char → List Char
  | acc, pend, [] => (pend ++ acc).reverse
  | acc, pend, c :: rest =>
    if (c == '|' || c == '•') && linkSuffixOk rest then acc.reverse
    else if isWsChar c then stripSuffixScan acc (c :: pend) rest
    else stripSuffixScan (c :: (pend ++ acc)) [] rest

/-- Model of `title.replace(/\s*[\|•]\s*(LinkedIn|Professional Profile).*$/i, '')`. -/
def stripLinkedInSuffix (s : String) : String := ⟨stripSuffixScan [] [] s.data⟩

/-- Job-word list of the no-separator heuristic in `extractProfileData`. -/
def jobWords : List String :=
  ["engineer", "manager", "director", "developer", "designer",
   "scientist", "analyst", "lead", "specialist", "consultant",
   "architect", "researcher", "coordinator", "associate", "intern"]

/-- First separator of `[' @ ', ' at ', ' | ']` found in the lowercased
after-dash segment, in that order (the source breaks at the first
separator that occurs at all). -/
def sepIdx (afterDash : String) : Option Nat :=
  match firstSubIdx (jsLower afterDash).data " @ ".data with
  | some i => some i
  | none =>
    match firstSubIdx (jsLower afterDash).data " at ".data with
    | some i => some i
    | none => firstSubIdx (jsLower afterDash).data " | ".data

/-- Embedding of the page-title parse of `extractProfileData` (steps on
lines 443-500 of src/app/api/search/route.ts): split on the first
`" - "`, then on the first separator, else apply the word-count plus
job-word heuristic.  Returns `(name, jobTitle, company)`. -/
def parseDash (cleanTitle : String) : String × String × String :=
  match firstSubIdx cleanTitle.data " - ".data with
  | some di =>
    let name := jsTrimS ⟨cleanTitle.data.take di⟩
    let afterDash := jsTrimS ⟨cleanTitle.data.drop (di + 3)⟩
    match sepIdx afterDash with
    | some si =>
      (name, jsTrimS ⟨afterDash.data.take si⟩, jsTrimS ⟨afterDash.data.drop (si + 3)⟩)
    | none =>
      let wordCount := (jsSplitWs afterDash).length
      let hasJobWord := jobWords.any (fun w => jsIncludes (jsLower afterDash) w)
      if wordCount ≤ 3 ∧ hasJobWord = false then (name, "Not specified", afterDash)
      else (name, afterDash, "Not specified")
  | none => (if cleanTitle = "" then "Unknown" else cleanTitle, "Not specified", "Not specified")

/-- Duration words of the validation regex
`/\d+\s*(year|yr|month|mo|week|day)s?/i`. -/
def durWords : List (List Char) :=
  ["year".data, "yr".data, "month".data, "mo".data, "week".data, "day".data]

/-- Attempt of the duration test at the current position: maximal digit
run, maximal whitespace run, then one of the words (the optional `s` never
affects a presence test); maximal runs suffice because the word list
starts with letters, which are neither digits nor whitespace. -/
def startsDuration (l : List Char) : Bool :=
  let ds := l.takeWhile Char.isDigit
  if ds.length == 0 then false
  else
    let r := (l.drop ds.length).dropWhile isWsChar
    durWords.any (fun w => ciStarts w r)

/-- Model of `/\d+\s*(year|yr|month|mo|week|day)s?/i.test(s)`. -/
def containsDuration : List Char → Bool
  | [] => false
  | c :: rest => startsDuration (c :: rest) || containsDuration rest

/-- Month literals of the date validation regex. -/
def monthWords : List (List Char) :=
  ["jan".data, "feb".data, "mar".data, "apr".data, "may".data, "jun".data,
   "jul".data, "aug".data, "sep".data, "oct".data, "nov".data, "dec".data]

/-- Model of `/^\d{4}/.test(s) || /^(Jan|...|Dec)/i.test(s)`. -/
def startsDate (l : List Char) : Bool :=
  ((l.take 4).length == 4 && (l.take 4).all Char.isDigit) ||
  monthWords.any (fun w => ciStarts w l)

/-- Model of `/^[A-Z][a-z]+\s+[A-Z][a-z]+$/.test(s)` (a bare `First Last`
name); deterministic because the adjacent classes are disjoint. -/
def bareNameTest (l : List Char) : Bool :=
  match l with
  | c :: rest =>
    c.isUpper &&
    (let ls := rest.takeWhile Char.isLower
     ls.length != 0 &&
     (let r2 := rest.drop ls.length
      let ws := r2.takeWhile isWsChar
      ws.length != 0 &&
      (match r2.drop ws.length with
       | d :: rest2 =>
         d.isUpper &&
         (let ls2 := rest2.takeWhile Char.isLower
          ls2.length != 0 && (rest2.drop ls2.length).isEmpty)
       | [] => false)))
  | [] => false

/-- Validation applied to every regex-extracted title candidate
(src/app/api/search/route.ts, lines 526-531 and 563-567). -/
def validExtracted (et : String) : Bool :=
  (5 ≤ et.length && et.length ≤ 80) &&
  !containsDuration et.data && !startsDate et.data && !bareNameTest et.data

/-- Character class `[:\s\n]` of the experience and current patterns
(`\n` already lies in `\s`). -/
def expCls1 (c : Char) : Bool := c == ':' || isWsChar c

/-- Character class `[^\n•·\d]` of the captured group. -/
def expCls2 (c : Char) : Bool := !(c == '\n' || c == '•' || c == '·' || c.isDigit)

/-- Terminator class `[\n•·]` closing the captured group. -/
def expTermCh (c : Char) : Bool := c == '\n' || c == '•' || c == '·'

/-- Attempt of `[:\s\n]+([^\n•·\d]{5,80})[\n•·]` with exactly `k1`
characters consumed by the first run.  The captured group is
deterministic: its class excludes the terminator characters, so only the
maximal group run (when at most 80) can be followed by a terminator. -/
def expTryAt (t : List Char) (k1 : Nat) : Option (List Char) :=
  let u := t.drop k1
  let a2 := (u.takeWhile expCls2).length
  if 5 ≤ a2 && a2 ≤ 80 &&
      (match u.drop a2 with | d :: _ => expTermCh d | [] => false) then
    some (u.take a2)
  else none

/-- Attempt of an experience/current pattern at the current position:
case-insensitive literal, then the greedy first run backtracking from its
maximal length. -/
def expAt (lit : List Char) (s : List Char) : Option (List Char) :=
  if ciStarts lit s then
    let t := s.drop lit.length
    let r1 := (t.takeWhile expCls1).length
    (List.range r1).findSome? (fun j => expTryAt t (r1 - j))
  else none

/-- Leftmost match of an experience/current pattern, returning group 1. -/
def findExp (lit : List Char) : List Char → Option (List Char)
  | [] => none
  | c :: rest =>
    match expAt lit (c :: rest) with
    | some g => some g
    | none => findExp lit rest

/-- Embedding of the pattern loop of lines 517-536: try each pattern in
order, clean and validate its first match, overwrite the title and break
on the first valid candidate. -/
def expLoop : List String → String → List Char → String
  | [], jt, _ => jt
  | lit :: rest, jt, ft =>
    match findExp lit.data ft with
    | some g =>
      let et := cleanExtractedText (jsTrimS ⟨g⟩)
      if validExtracted et then et else expLoop rest jt ft
    | none => expLoop rest jt ft

/-- JS word-character class `\w`. -/
def wordCh (c : Char) : Bool := c.isAlpha || c.isDigit || c == '_'

/-- Character class `[a-zA-Z0-9\s&]` of the second abbreviation group. -/
def g2Cls (c : Char) : Bool := c.isAlpha || c.isDigit || isWsChar c || c == '&'

/-- Attempt of `/\b([A-Z]{2,5})\b\s*(?:@|at)\s+([A-Z][a-zA-Z0-9\s&]+)/`
(no flags) at the current position, the leading boundary already checked
by the caller.  The group `[A-Z]{2,5}` must cover the whole maximal
uppercase run: a shorter prefix is followed by an uppercase (word)
character and the trailing boundary fails. -/
def abbrevAt (s : List Char) : Option (List Char × List Char) :=
  let ur := s.takeWhile Char.isUpper
  if 2 ≤ ur.length && ur.length ≤ 5 &&
      (match s.drop ur.length with | d :: _ => !wordCh d | [] => true) then
    let t := (s.drop ur.length).dropWhile isWsChar
    let t2 :=
      if t.headD ' ' == '@' then some (t.drop 1)
      else if ("at".data).isPrefixOf t then some (t.drop 2)
      else none
    match t2 with
    | some t3 =>
      let ws := t3.takeWhile isWsChar
      if ws.length == 0 then none
      else
        match t3.drop ws.length with
        | d :: r =>
          if d.isUpper then
            let g2r := r.takeWhile g2Cls
            if g2r.length == 0 then none else some (ur, d :: g2r)
          else none
        | [] => none
    | none => none
  else none

/-- Leftmost match of the abbreviation pattern; `prevWord` tracks whether
the previous character was a word character (the `\b` before group 1). -/
def findAbbrevGo (prevWord : Bool) : List Char → Option (List Char × List Char)
  | [] => none
  | c :: rest =>
    match (if prevWord then none else abbrevAt (c :: rest)) with
    | some g => some g
    | none => findAbbrevGo (wordCh c) rest

/-- Leftmost match of the abbreviation pattern of line 540. -/
def findAbbrev (l : List Char) : Option (List Char × List Char) := findAbbrevGo false l

/-- Complement of the split class `[\n•·]` used on the abbreviation
company group. -/
def termSegCls (c : Char) : Bool := !(c == '\n' || c == '•' || c == '·')

/-- Embedding of the abbreviation fallback of lines 539-547: runs only
when the title still holds the sentinel; group 1 becomes the title and,
when the company also holds the sentinel, the first segment of group 2
becomes the company. -/
def abbrevStage (ft : List Char) (jt co : String) : String × String :=
  if jt = "Not specified" then
    match findAbbrev ft with
    | some (g1, g2) =>
      (String.mk g1,
       if co = "Not specified" then jsTrimS ⟨(jsTrimS ⟨g2⟩).data.takeWhile termSegCls⟩
       else co)
    | none => (jt, co)
  else (jt, co)

/-- Embedding of the text-based passes of lines 513-548: guarded by a
body-or-highlight length above 50, first the experience/current loop,
then the abbreviation fallback, over `text ++ " " ++ highlights`. -/
def textPasses (text hl jt co : String) : String × String :=
  if 50 < text.length ∨ 50 < hl.length then
    let ft := (text ++ " " ++ hl).data
    let jt1 := expLoop ["experience", "current"] jt ft
    abbrevStage ft jt1 co
  else (jt, co)

/-- Character class `[^\n•·]` of the company-pattern group. -/
def coCls (c : Char) : Bool := !(c == '\n' || c == '•' || c == '·')

/-- Tail of the company pattern after the whitespace run: optional greedy
`(?:at\s+)` then the case-insensitive company literal; inside the option
the whitespace run backtracks from its maximal length. -/
def coTryTail (comp : List Char) (v : List Char) : Bool :=
  (if ciStarts ['a', 't'] v then
    let t := v.drop 2
    let wr := (t.takeWhile isWsChar).length
    (List.range wr).any (fun j => ciStarts comp (t.drop (wr - j)))
  else false) ||
  ciStarts comp v

/-- Attempt of the company pattern with a captured group of exactly `k`
characters, the separating `[\s\n]+` run backtracking from its maximal
length. -/
def coTryK (comp : List Char) (t : List Char) (k : Nat) : Option (List Char) :=
  let u := t.drop k
  let wr := (u.takeWhile isWsChar).length
  if (List.range wr).any (fun j => coTryTail comp (u.drop (wr - j))) then some (t.take k)
  else none

/-- Attempt of `([^\n•·]{5,80})[\s\n]+(?:at\s+)?company` at the current
position: the greedy group backtracks from the maximal class run capped
at 80 down to 5. -/
def coAt (comp : List Char) (t : List Char) : Option (List Char) :=
  let r3 := min ((t.takeWhile coCls).length) 80
  (List.range r3).findSome? (fun j => if 5 ≤ r3 - j then coTryK comp t (r3 - j) else none)

/-- Leftmost match of the company pattern of lines 555-558, returning
group 1. -/
def findCompanyMatch (comp : List Char) : List Char → Option (List Char)
  | [] => none
  | c :: rest =>
    match coAt comp (c :: rest) with
    | some g => some g
    | none => findCompanyMatch comp rest

/-- Regex part of the target-company pass (lines 560-572): a validated
first match overwrites the title and forces the company to the search
company. -/
def companyRegexStep (comp ft : List Char) (searchCompany jt co : String) : String × String :=
  match findCompanyMatch comp ft with
  | some g =>
    let et := cleanExtractedText (jsTrimS ⟨g⟩)
    if validExtracted et then (et, searchCompany) else (jt, co)
  | none => (jt, co)

/-- Embedding of the target-company pass of lines 550-580: guarded by a
nonempty search company and nonempty text or highlights; a validated
match overwrites the title and forces the company; afterwards a sentinel
company is replaced by the search company when the full text mentions it
case-insensitively. -/
def companyPassStep (searchCompany text hl jt co : String) : String × String :=
  if searchCompany ≠ "" ∧ (text ≠ "" ∨ hl ≠ "") then
    let ft := text ++ " " ++ hl
    let p1 := companyRegexStep (jsLower searchCompany).data ft.data searchCompany jt co
    let co2 :=
      if p1.2 = "Not specified" ∧ jsIncludes (jsLower ft) (jsLower searchCompany) then
        searchCompany
      else p1.2
    (p1.1, co2)
  else (jt, co)

/-- Character class `[@|•\-\s]` of the affix strip after the title parse. -/
def affixCls (c : Char) : Bool :=
  c == '@' || c == '|' || c == '•' || c == '-' || isWsChar c

/-- Embedding of `extractProfileData` (src/app/api/search/route.ts, lines
434-597).  The `Math.random()` based id fallback is modelled by the
`rand` oracle argument: the id is `result.id`, else `result.url`, else
`"profile-" ++ rand` where `rand` stands for the fresh random draw of
that call. -/
def extractProfileData (rand : String) (result : SearchResult) (searchCompany : String) :
    Profile :=
  let text := result.text
  let highlights := String.intercalate " " result.highlights
  let cleanTitle := jsTrimS (stripLinkedInSuffix result.title)
  let p0 := parseDash cleanTitle
  let name1 := jsTrimS (collapseWsS p0.1)
  let jt1 := jsTrimS (collapseWsS p0.2.1)
  let co1 := jsTrimS (collapseWsS p0.2.2)
  let co2 := jsTrimS ⟨dropTrailingWhile affixCls (co1.data.dropWhile affixCls)⟩
  let jt2 := jsTrimS ⟨dropTrailingWhile affixCls (jt1.data.dropWhile affixCls)⟩
  let p1 := textPasses text highlights jt2 co2
  let p2 := companyPassStep searchCompany text highlights p1.1 p1.2
  let name2 := cleanExtractedText name1
  let jt3 := cleanExtractedText p2.1
  let co3 := cleanExtractedText p2.2
  let jt4 := cleanJobTitle jt3 name2
  { id := jsOrS result.id (jsOrS result.url ("profile-" ++ rand)),
    name := name2, title := jt4, company := co3, linkedinUrl := result.url }

/-- Model of the `normalizeTitle` closure of `hasMatchingJobTitle`:
hyphens and underscores become spaces, whitespace is collapsed, ends
trimmed. -/
def normalizeTitle (title : String) : String :=
  jsTrimS (collapseWsS ⟨title.data.map (fun c => if c == '-' || c == '_' then ' ' else c)⟩)

/-- Embedding of the `titleSynonyms` table (src/app/api/search/route.ts,
lines 142-153), in source order. -/
def titleSynonyms : List (String × List String) :=
  [("director", ["director", "head", "vp", "vice president", "lead", "principal"]),
   ("engineer", ["engineer", "developer", "programmer", "technologist", "swe", "mts",
     "member of technical staff", "ic", "individual contributor", "staff engineer",
     "senior engineer"]),
   ("scientist", ["scientist", "researcher", "research engineer", "research scientist",
     "applied scientist"]),
   ("manager", ["manager", "lead", "supervisor", "head", "em", "engineering manager",
     "technical lead", "tech lead", "tl"]),
   ("founder", ["founder", "co-founder", "cofounder", "ceo", "chief executive"]),
   ("designer", ["designer", "ux", "ui", "product designer", "design lead",
     "creative director"]),
   ("analyst", ["analyst", "associate", "specialist", "consultant"]),
   ("product", ["product manager", "pm", "product lead", "product owner", "tpm",
     "technical product manager"]),
   ("data", ["data scientist", "data engineer", "data analyst", "ml engineer",
     "machine learning engineer"])]

/-- Direct substring clause of `hasMatchingJobTitle` (line 234). -/
def directMatch (ns np : String) : Bool := jsIncludes np ns || jsIncludes ns np

/-- Founder special case of lines 239-248; `none` models falling through
the block, `some b` an early `return b`. -/
def founderCase (ns np : String) : Option Bool :=
  if jsIncludes ns "founder" || jsIncludes np "founder" then
    if jsIncludes ns "co founder" || jsIncludes ns "cofounder" then
      some (jsIncludes np "founder")
    else if jsIncludes np "co founder" || jsIncludes np "cofounder" then
      some (jsIncludes ns "founder")
    else none
  else none

/-- Variation clause of lines 251-258. -/
def variationMatch (vars : List String) (np : String) : Bool :=
  vars.any (fun v =>
    let nv := normalizeTitle (jsLower v)
    jsIncludes np nv || jsIncludes nv np)

/-- Synonym-table clause of lines 262-277. -/
def synonymMatch (ns np : String) : Bool :=
  let searchTerms := jsSplitWs ns
  titleSynonyms.any (fun bp =>
    let baseWords := jsSplitWs bp.1
    let hasBase :=
      baseWords.any (fun w => searchTerms.any (fun sw => jsIncludes sw w || jsIncludes w sw))
    (hasBase || jsIncludes ns bp.1) && bp.2.any (fun syn => jsIncludes np syn))

/-- Stoplist of the final token fallback (line 287). -/
def stopWords : List String :=
  ["a", "the", "and", "or", "at", "in", "of", "senior", "junior", "staff"]

/-- Final token fallback of lines 281-293: keep the search tokens that are
not stoplisted and share a substring relation with some profile token
(the profile tokens are not filtered), and succeed when any survive. -/
def fallbackMatch (ns np : String) : Bool :=
  let searchWords := jsSplitWs ns
  let profileWords := jsSplitWs np
  decide (0 < (searchWords.filter (fun w =>
    !(stopWords.contains w) &&
    profileWords.any (fun pw => jsIncludes pw w || jsIncludes w pw))).length)

/-- Embedding of `hasMatchingJobTitle` (src/app/api/search/route.ts, lines
218-294): sentinel guard, normalization, then the clause chain in source
order. -/
def hasMatchingJobTitle (profile : Profile) (searchedTitle : String)
    (titleVariations : List String) : Bool :=
  let profileTitle := jsLower profile.title
  if profileTitle = "" ∨ profileTitle = "not specified" then false
  else
    let np := normalizeTitle profileTitle
    let ns := normalizeTitle (jsLower searchedTitle)
    if directMatch ns np then true
    else
      match founderCase ns np with
      | some b => b
      | none =>
        if variationMatch titleVariations np then true
        else if synonymMatch ns np then true
        else fallbackMatch ns np

/-- Junk literals of `extractBio` (src/unnamed/part_000, lines 501-513);
all are plain strings except `view.*profile`, handled separately. -/
def junkLits : List String :=
  ["sign in to view", "join now", "email or phone", "forgot password",
   "user agreement", "privacy policy", "cookie policy", "new to linkedin",
   "by clicking continue", "connect with"]

/-- Same-line tail test for `/view.*profile/i`: the dot does not match
line terminators, so `profile` must occur in the remaining line. -/
def hasProfileInLine (l : List Char) : Bool :=
  jsIncludes ⟨(l.takeWhile (fun c => c != '\n' && c != '\r')).map Char.toLower⟩ "profile"

/-- Model of `/view.*profile/i.test(s)`. -/
def viewProfileGo : List Char → Bool
  | [] => false
  | c :: rest =>
    (ciStarts "view".data (c :: rest) && hasProfileInLine (rest.drop 3)) || viewProfileGo rest

/-- Test that some junk pattern of `extractBio` matches the sentence. -/
def junkTest (s : String) : Bool :=
  junkLits.any (fun lit => jsIncludes (jsLower s) lit) || viewProfileGo s.data

/-- Sentence terminator class `[.!?]`. -/
def isTermChar (c : Char) : Bool := c == '.' || c == '!' || c == '?'

/-- Split on maximal terminator runs as `split(/[.!?]+/)` does, keeping
boundary empty pieces. -/
def splitTermGo : Bool → List Char → List Char → List (List Char)
  | _, cur, [] => [cur.reverse]
  | inT, cur, c :: rest =>
    if isTermChar c then
      (if inT then splitTermGo true cur rest else cur.reverse :: splitTermGo true [] rest)
    else splitTermGo false (c :: cur) rest

/-- Model of `fullText.split(/[.!?]+/)`. -/
def splitSentences (s : String) : List String := (splitTermGo false [] s.data).map String.mk

/-- Sentence filter of `extractBio`: length in `[20, 300]` and no junk
pattern. -/
def goodSentence (s : String) : Bool := !(s.length < 20 || 300 < s.length) && !junkTest s

/-- Dot-matchable characters (no line terminators). -/
def dotCh (c : Char) : Bool := c != '\n' && c != '\r'

/-- Attempt of the lazy capture of `/\-\s*(.+?)\s*\|/` with exactly `m`
captured characters; the trailing `\s*` is deterministic because the pipe
is not whitespace. -/
def dashPipeTryM (t : List Char) (m : Nat) : Option (List Char) :=
  let q := t.drop m
  let ws := q.takeWhile isWsChar
  if (q.drop ws.length).headD ' ' == '|' then some (t.take m) else none

/-- Attempt of `/\-\s*(.+?)\s*\|/` just after a dash: leading `\s*` greedy
(descending), capture lazy (ascending, within the current line because
the dot skips line terminators). -/
def dashPipeAt (after : List Char) : Option (List Char) :=
  let wmax := (after.takeWhile isWsChar).length
  (List.range (wmax + 1)).findSome? (fun j =>
    let t := after.drop (wmax - j)
    let lineLen := (t.takeWhile dotCh).length
    (List.range lineLen).findSome? (fun i => dashPipeTryM t (i + 1)))

/-- Leftmost match of `/\-\s*(.+?)\s*\|/`, returning group 1. -/
def dashPipeGo : List Char → Option (List Char)
  | [] => none
  | c :: rest =>
    match (if c == '-' then dashPipeAt rest else none) with
    | some g => some g
    | none => dashPipeGo rest

/-- Embedding of `extractBio` (src/unnamed/part_000, lines 497-535):
first surviving sentence of `highlights ++ " " ++ text`, cleaned; else
the cleaned dash-to-pipe segment of the page title; else the fixed
placeholder. -/
def extractBio (text highlights pageTitle : String) : String :=
  let fullText := highlights ++ " " ++ text
  let sentences := ((splitSentences fullText).map jsTrimS).filter goodSentence
  match sentences with
  | s :: _ => cleanExtractedText s
  | [] =>
    match dashPipeGo pageTitle.data with
    | some g => cleanExtractedText ⟨g⟩
    | none => "LinkedIn profile (bio not available)"

/-- Profile with the dedup annotations added by `checkHubSpotStatus`;
`toProfile` carries the unchanged input fields. -/
structure AnnotatedProfile where
  toProfile : Profile
  inHubSpot : Bool
  hubSpotContactId : Option String
deriving DecidableEq, Repr

/-- CRM collaborator model: an exact lookup by LinkedIn URL returning an
error, no contact, or the contact id (the search is issued with
`limit: 1`, so at most one contact returns). -/
abbrev CrmClient := String → Except Unit (Option String)

/-- Per-profile body of the batch map in `checkHubSpotStatus` (lines
318-340): a hit marks `inHubSpot` with the returned id, a miss or a
caught error marks `inHubSpot := false`. -/
def annotateOne (crm : CrmClient) (p : Profile) : AnnotatedProfile :=
  match crm p.linkedinUrl with
  | .ok (some cid) => ⟨p, true, some cid⟩
  | .ok none => ⟨p, false, none⟩
  | .error _ => ⟨p, false, none⟩

/-- Split into chunks of five, modelling the `BATCH_SIZE = 5` slicing of
the hubspot loop; `k` counts the remaining capacity of the open chunk. -/
def chunksGo {α : Type} : Nat → List α → List α → List (List α)
  | _, cur, [] => [cur.reverse]
  | 0, cur, x :: rest => cur.reverse :: chunksGo 4 [x] rest
  | k + 1, cur, x :: rest => chunksGo k (x :: cur) rest

/-- Chunks of five in order. -/
def chunks5 {α : Type} : List α → List (List α)
  | [] => []
  | x :: rest => chunksGo 4 [x] rest

/-- Batched loop of `checkHubSpotStatus` (lines 313-349): each batch is
annotated (concurrently in the source, with a joint await preserving
order) and appended in order. -/
def hubspotBatches (crm : CrmClient) (ps : List Profile) : List AnnotatedProfile :=
  ((chunks5 ps).map (fun batch => batch.map (annotateOne crm))).flatten

/-- Embedding of `checkHubSpotStatus` (src/app/api/search/route.ts, lines
302-355): without a token or with no profiles every profile is marked
`inHubSpot := false`; otherwise the batched CRM lookups run. -/
def checkHubSpotStatus (hasToken : Bool) (crm : CrmClient) (profiles : List Profile) :
    List AnnotatedProfile :=
  if hasToken = false ∨ profiles = [] then profiles.map (fun p => ⟨p, false, none⟩)
  else hubspotBatches crm profiles

/-- URL filter of the POST handler (lines 59-66). -/
def urlOk (url : String) : Bool :=
  jsIncludes url "linkedin.com/in/" && !jsIncludes url "/jobs/" && !jsIncludes url "/company/"

/-- Filtered search results (line 59). -/
def filterResults (rs : List SearchResult) : List SearchResult := rs.filter (fun r => urlOk r.url)

/-- Keep filter of the POST handler (lines 76-92): company and title
checks apply only when the corresponding query part is nonempty. -/
def keepProfile (company titleQ : String) (vars : List String) (p : Profile) : Bool :=
  (decide (company = "") || isCurrentEmployee p company) &&
  (decide (titleQ = "") || hasMatchingJobTitle p titleQ vars)

/-- Profile stage of the POST handler: URL filter, per-result extraction
(each call drawing its own random string from the `rand` oracle), then
the keep filter. -/
def searchPipeline (rand : SearchResult → String) (company titleQ : String)
    (vars : List String) (rs : List SearchResult) : List Profile :=
  ((filterResults rs).map (fun r => extractProfileData (rand r) r company)).filter
    (keepProfile company titleQ vars)

/-- Full returned list of the POST handler: pipeline then dedup
annotation. -/
def routeProfiles (hasToken : Bool) (crm : CrmClient) (rand : SearchResult → String)
    (company titleQ : String) (vars : List String) (rs : List SearchResult) :
    List AnnotatedProfile :=
  checkHubSpotStatus hasToken crm (searchPipeline rand company titleQ vars rs)

/-- Token-overlap fallback as claim C6 words it (spec side, for
comparison with the code): both token lists are filtered by the
stoplist before the substring test. -/
def claimedTokenFallback (ns np : String) : Bool :=
  ((jsSplitWs ns).filter (fun w => !(stopWords.contains w))).any (fun w =>
    ((jsSplitWs np).filter (fun t => !(stopWords.contains t))).any (fun t =>
      jsIncludes t w || jsIncludes w t))

/-- Search result of the first C2 example. -/
def resultChris : SearchResult :=
  { id := "id1", url := "https://linkedin.com/in/chris",
    title := "Chris Beaumont - Data Science @ OpenAI | LinkedIn",
    text := "", highlights := [] }

/-- Search result of the second C2 example. -/
def resultJane : SearchResult :=
  { id := "id2", url := "https://linkedin.com/in/jane",
    title := "Jane Doe - Acme | LinkedIn", text := "", highlights := [] }

/-- Search result with every field absent, for the id randomness in C4. -/
def resultBlank : SearchResult :=
  { id := "", url := "", title := "", text := "", highlights := [] }

/-- Search result with a nonempty id, for the C4 witness. -/
def resultWithId : SearchResult :=
  { id := "idX", url := "", title := "", text := "", highlights := [] }

/-- Search result whose page text contains the literal sentinel phrase in
an Experience line, for C10. -/
def resultC10 : SearchResult :=
  { id := "x1", url := "https://linkedin.com/in/js",
    title := "John Smith - Engineer @ Acme | LinkedIn",
    text := "Experience: Not specified\nthe rest of the page text here",
    highlights := [] }

/-- Profile whose title is Director, for C5. -/
def profileDirector : Profile :=
  { id := "d1", name := "D", title := "Director", company := "C",
    linkedinUrl := "https://linkedin.com/in/d" }

/-- Profile whose title contains Head, for the C5 witness. -/
def profileHeadAI : Profile :=
  { id := "d2", name := "H", title := "Head of AI", company := "C",
    linkedinUrl := "https://linkedin.com/in/h" }

/-- Profile whose title is Co-Founder, for the C5 witness. -/
def profileCoFounder : Profile :=
  { id := "d3", name := "F", title := "Co-Founder", company := "C",
    linkedinUrl := "https://linkedin.com/in/f" }

/-- Profile whose title contains a stoplisted token, for C6. -/
def profileKop : Profile :=
  { id := "k1", name := "MJ", title := "King of Pop", company := "C",
    linkedinUrl := "https://linkedin.com/in/mj" }

/-- Profile for the C6 witness. -/
def profileGhost : Profile :=
  { id := "g1", name := "G", title := "Ghost Typewriter", company := "C",
    linkedinUrl := "https://linkedin.com/in/g" }

/-- Search result with a job-posting URL, for the C3 witness. -/
def badResult : SearchResult :=
  { id := "b", url := "https://linkedin.com/jobs/view/123", title := "",
    text := "", highlights := [] }

/-- CRM stub for the C8 and C9 witnesses: one hit, one miss, errors
elsewhere. -/
def crmW : CrmClient := fun url =>
  if url = "https://linkedin.com/in/w1" then .ok (some "42")
  else if url = "https://linkedin.com/in/w2" then .ok none
  else .error ()

/-- Profile annotated as a CRM hit by `crmW`. -/
def profileW1 : Profile :=
  { id := "w1", name := "W1", title := "T1", company := "C1",
    linkedinUrl := "https://linkedin.com/in/w1" }

/-- Profile annotated as a CRM miss by `crmW`. -/
def profileW2 : Profile :=
  { id := "w2", name := "W2", title := "T2", company := "C2",
    linkedinUrl := "https://linkedin.com/in/w2" }

/-- Profile whose CRM lookup errors under `crmW`. -/
def profileW3 : Profile :=
  { id := "w3", name := "W3", title := "T3", company := "C3",
    linkedinUrl := "https://linkedin.com/in/w3" }
theorem firstSubIdxGo_isSome_iff (needle : List Char) :
    ∀ (l : List Char) (i : Nat),
      (firstSubIdxGo needle l i).isSome = true ↔ needle <:+: l := by
  intro l
  induction l with
  | nil =>
    intro i
    simp only [firstSubIdxGo]
    constructor
    · intro h
      by_cases hp : needle.isPrefixOf ([] : List Char) = true
      · have : needle <+: ([] : List Char) := List.isPrefixOf_iff_prefix.mp hp
        exact this.isInfix
      · simp [hp] at h
    · intro h
      have : needle = [] := List.eq_nil_of_infix_nil h
      subst this
      simp
  | cons c rest ih =>
    intro i
    simp only [firstSubIdxGo]
    by_cases hp : needle.isPrefixOf (c :: rest) = true
    · simp only [hp, if_pos, Option.isSome_some, true_iff]
      exact (List.isPrefixOf_iff_prefix.mp hp).isInfix
    · simp only [hp]
      rw [if_neg (by simp [hp])]
      rw [ih (i + 1)]
      constructor
      · intro h
        exact h.trans (List.suffix_cons c rest).isInfix
      · intro h
        rcases (List.infix_cons_iff).mp h with h1 | h2
        · exact absurd (List.isPrefixOf_iff_prefix.mpr h1) hp
        · exact h2

theorem jsIncludes_iff (hay needle : String) :
    jsIncludes hay needle = true ↔ needle.data <:+: hay.data := by
  unfold jsIncludes firstSubIdx
  exact firstSubIdxGo_isSome_iff needle.data hay.data 0

theorem jsIncludes_self (s : String) : jsIncludes s s = true :=
  (jsIncludes_iff s s).mpr (List.infix_refl _)

theorem jsLower_eq_empty_iff (s : String) : jsLower s = "" ↔ s = "" := by
  unfold jsLower
  constructor
  · intro h
    have : s.data.map Char.toLower = [] := congrArg String.data h
    have hd : s.data = [] := List.map_eq_nil_iff.mp this
    cases s
    simp_all
  · intro h
    subst h
    rfl

/-- Claim C1: the company match returns false when the profile company is
empty or equal to the sentinel (the code compares after lowercasing, so
the sentinel test is case-insensitive equality with "Not specified");
otherwise it returns true exactly when one of the two strings contains
the other case-insensitively or the strings are equal.  The two example
conjuncts are the instances named by the claim. -/
theorem claim_c1_companyMatch :
    (∀ (p : Profile) (c : String),
      isCurrentEmployee p c = true ↔
        (p.company ≠ "" ∧ jsLower p.company ≠ "not specified" ∧
          (jsIncludes (jsLower p.company) (jsLower c) = true ∨
           jsIncludes (jsLower c) (jsLower p.company) = true ∨
           p.company = c))) ∧
    isCurrentEmployee profileOpenAIResearch "OpenAI" = true ∧
    isCurrentEmployee profileNotSpecified "OpenAI" = false := by
  refine ⟨?_, by decide, by decide⟩
  intro p c
  unfold isCurrentEmployee
  by_cases h1 : jsLower p.company = "" ∨ jsLower p.company = "not specified"
  · rw [if_pos h1]
    refine iff_of_false (by simp) ?_
    rintro ⟨hne, hns, _⟩
    rcases h1 with h1 | h1
    · exact hne ((jsLower_eq_empty_iff p.company).mp h1)
    · exact hns h1
  · rw [if_neg h1]
    push_neg at h1
    obtain ⟨h1a, h1b⟩ := h1
    have hc : p.company ≠ "" := fun h => h1a (by rw [h]; rfl)
    by_cases h2 : jsIncludes (jsLower p.company) (jsLower c) = true ∨
        jsIncludes (jsLower c) (jsLower p.company) = true
    · rw [if_pos h2]
      refine iff_of_true rfl ?_
      exact ⟨hc, h1b, h2.imp id Or.inl⟩
    · rw [if_neg h2]
      push_neg at h2
      by_cases h3 : jsLower p.company = jsLower c
      · rw [if_pos h3]
        refine iff_of_true rfl ?_
        refine ⟨hc, h1b, Or.inl ?_⟩
        rw [h3]
        exact jsIncludes_self _
      · rw [if_neg h3]
        refine iff_of_false (by simp) ?_
        rintro ⟨_, _, hor⟩
        rcases hor with h | h | h
        · exact absurd h h2.1
        · exact absurd h h2.2
        · exact h3 (by rw [h])


theorem companyPassStep_skip (c jt co : String) :
    companyPassStep c "" "" jt co = (jt, co) := by
  unfold companyPassStep
  rw [if_neg]
  rintro ⟨-, h⟩
  rcases h with h | h <;> exact h rfl

theorem extract_linkedinUrl (rand : String) (r : SearchResult) (c : String) :
    (extractProfileData rand r c).linkedinUrl = r.url := rfl

theorem jsOrS_of_ne (a b : String) (h : a ≠ "") : jsOrS a b = a := if_neg h

/-- Claim C2: the two example page titles with empty body text and
highlights extract exactly the fields the claim names (for every target
company and every random draw, since the text passes are skipped on empty
text). -/
theorem claim_c2_exampleTitles :
    ∀ (rand c : String),
      extractProfileData rand resultChris c =
        { id := "id1", name := "Chris Beaumont", title := "Data Science",
          company := "OpenAI", linkedinUrl := "https://linkedin.com/in/chris" } ∧
      extractProfileData rand resultJane c =
        { id := "id2", name := "Jane Doe", title := "Not specified",
          company := "Acme", linkedinUrl := "https://linkedin.com/in/jane" } := by
  intro rand c
  have hj : String.intercalate " " ([] : List String) = "" := rfl
  constructor
  · show extractProfileData rand resultChris c = _
    simp only [extractProfileData, resultChris, hj]
    rw [companyPassStep_skip, jsOrS_of_ne _ _ (by decide)]
    decide
  · show extractProfileData rand resultJane c = _
    simp only [extractProfileData, resultJane, hj]
    rw [companyPassStep_skip, jsOrS_of_ne _ _ (by decide)]
    decide

/-- Claim C4 fails on the code: when both `result.id` and `result.url`
are empty, the id falls back to `Math.random()` (modelled by the `rand`
oracle), so two runs on the same input can differ in the id field. -/
theorem claim_c4_counterexample :
    extractProfileData "aaaaaaaaa" resultBlank "" ≠
      extractProfileData "bbbbbbbbb" resultBlank "" := by
  intro h
  exact absurd (congrArg Profile.id h) (by decide)

/-- Claim C4 amended: extraction is deterministic in every field,
including the id, for every search result whose id or url is nonempty;
only the empty-id-and-url fallback draws randomness. -/
theorem claim_c4_amended :
    ∀ (rand1 rand2 : String) (r : SearchResult) (c : String),
      r.id ≠ "" ∨ r.url ≠ "" →
      extractProfileData rand1 r c = extractProfileData rand2 r c := by
  intro rand1 rand2 r c h
  simp only [extractProfileData]
  congr 1
  unfold jsOrS
  rcases h with h | h
  · rw [if_neg h, if_neg h]
  · by_cases hid : r.id = ""
    · rw [if_pos hid, if_pos hid, if_neg h, if_neg h]
    · rw [if_neg hid, if_neg hid]

/-- Witness for the amended C4 at a concrete input with a nonempty id. -/
theorem claim_c4_amended_witness :
    (resultWithId.id ≠ "" ∨ resultWithId.url ≠ "") ∧
    extractProfileData "aaa" resultWithId "" = extractProfileData "bbb" resultWithId "" :=
  ⟨by decide, claim_c4_amended "aaa" "bbb" resultWithId "" (by decide)⟩

/-- Claim C10 fails on the code: the page-title parse yields the
non-sentinel title Engineer, but the Experience regex pass then extracts
the literal phrase `Not specified` from the body text, which passes
validation, so the sentinel is re-assigned after having been replaced. -/
theorem claim_c10_counterexample :
    (parseDash (jsTrimS (stripLinkedInSuffix resultC10.title))).2.1 = "Engineer" ∧
    (extractProfileData "r0" resultC10 "").title = "Not specified" := by
  constructor <;> decide

theorem expLoop_unchanged_or_valid :
    ∀ (lits : List String) (jt : String) (ft : List Char),
      expLoop lits jt ft = jt ∨ validExtracted (expLoop lits jt ft) = true := by
  intro lits
  induction lits with
  | nil => intro jt ft; left; rfl
  | cons lit rest ih =>
    intro jt ft
    simp only [expLoop]
    cases h : findExp lit.data ft with
    | none => exact ih jt ft
    | some g =>
      dsimp only
      by_cases hv : validExtracted (cleanExtractedText (jsTrimS ⟨g⟩)) = true
      · right
        rw [if_pos hv]
        exact hv
      · rw [if_neg hv]
        exact ih jt ft

theorem companyRegexStep_unchanged_or_valid (comp ft : List Char) (c jt co : String) :
    (companyRegexStep comp ft c jt co).1 = jt ∨
      validExtracted (companyRegexStep comp ft c jt co).1 = true := by
  unfold companyRegexStep
  cases h : findCompanyMatch comp ft with
  | none => left; rfl
  | some g =>
    dsimp only
    by_cases hv : validExtracted (cleanExtractedText (jsTrimS ⟨g⟩)) = true
    · right
      rw [if_pos hv]
      exact hv
    · rw [if_neg hv]
      left
      rfl

/-- Claim C10 amended: after the page-title parse, the experience and
current regex passes either leave the title unchanged or overwrite it
with a candidate that passed validation (length 5 to 80, not a duration,
date, or bare name); the abbreviation fallback leaves a non-sentinel
title unchanged; and the target-company pass either leaves the title
unchanged or overwrites it with a validated candidate.  A validated
candidate can itself be the literal sentinel string when the page text
contains that phrase, so the sentinel can be re-assigned (the
counterexample); apart from that, the claimed step discipline holds. -/
theorem claim_c10_amended :
    ∀ (ft : List Char) (jt co searchCompany text hl : String),
      (expLoop ["experience", "current"] jt ft = jt ∨
        validExtracted (expLoop ["experience", "current"] jt ft) = true) ∧
      (jt ≠ "Not specified" → (abbrevStage ft jt co).1 = jt) ∧
      ((companyPassStep searchCompany text hl jt co).1 = jt ∨
        validExtracted (companyPassStep searchCompany text hl jt co).1 = true) := by
  intro ft jt co searchCompany text hl
  refine ⟨expLoop_unchanged_or_valid _ jt ft, ?_, ?_⟩
  · intro h
    unfold abbrevStage
    rw [if_neg h]
  · unfold companyPassStep
    by_cases hg : searchCompany ≠ "" ∧ (text ≠ "" ∨ hl ≠ "")
    · rw [if_pos hg]
      exact companyRegexStep_unchanged_or_valid _ _ _ _ _
    · rw [if_neg hg]
      left
      rfl

/-- Witness for the amended C10: concrete application with a non-sentinel
title left unchanged by the abbreviation stage. -/
theorem claim_c10_amended_witness :
    ("Engineer" ≠ "Not specified") ∧ (abbrevStage [] "Engineer" "Acme").1 = "Engineer" :=
  ⟨by decide, (claim_c10_amended [] "Engineer" "Acme" "" "" "").2.1 (by decide)⟩

/-- Claim C5 fails on the code in one direction: the synonym table is
keyed on the search side only, so a search for `head` does not match the
profile title `Director` (the claim predicts a match in both
directions). -/
theorem claim_c5_counterexample :
    hasMatchingJobTitle profileDirector "head" [] = false := by decide

theorem founderCase_dir_none (np : String)
    (h2 : jsIncludes np "co founder" = false) (h3 : jsIncludes np "cofounder" = false) :
    founderCase "director" np = none := by
  unfold founderCase
  rw [show jsIncludes "director" "founder" = false from by decide]
  simp only [Bool.false_or]
  cases hf : jsIncludes np "founder" with
  | false => rfl
  | true =>
    rw [if_pos rfl]
    rw [if_neg (by decide)]
    rw [if_neg (by rw [h2, h3]; simp)]

theorem synonymMatch_dir (np : String) (h1 : jsIncludes np "head" = true) :
    synonymMatch "director" np = true := by
  unfold synonymMatch
  rw [List.any_eq_true]
  refine ⟨("director", ["director", "head", "vp", "vice president", "lead", "principal"]),
    by simp [titleSynonyms], ?_⟩
  dsimp only
  rw [Bool.and_eq_true]
  refine ⟨by decide, ?_⟩
  rw [List.any_eq_true]
  exact ⟨"head", by simp, h1⟩

/-- Claim C5 amended: the synonym table is applied on the search side
only — a search for `director` does match a profile title containing
`head` (as long as the profile title contains no co-founder form, which
would trigger the early false of the founder special case), but a search
for `head` does not match a profile title containing `director` (the
counterexample).  The founder/co-founder equivalence holds as claimed: a
profile whose normalized title contains `founder` in any form matches
both a `founder` and a `co-founder` search. -/
theorem claim_c5_amended :
    (∀ p : Profile,
      jsIncludes (normalizeTitle (jsLower p.title)) "head" = true →
      jsIncludes (normalizeTitle (jsLower p.title)) "co founder" = false →
      jsIncludes (normalizeTitle (jsLower p.title)) "cofounder" = false →
      hasMatchingJobTitle p "director" [] = true) ∧
    (∀ p : Profile,
      jsIncludes (normalizeTitle (jsLower p.title)) "founder" = true →
      hasMatchingJobTitle p "founder" [] = true ∧
      hasMatchingJobTitle p "co-founder" [] = true) := by
  constructor
  · intro p h1 h2 h3
    have hg : ¬(jsLower p.title = "" ∨ jsLower p.title = "not specified") := by
      rintro (h | h) <;> rw [h] at h1
      · exact absurd h1 (by decide)
      · exact absurd h1 (by decide)
    simp only [hasMatchingJobTitle]
    rw [if_neg hg]
    rw [show normalizeTitle (jsLower "director") = "director" from by decide]
    by_cases hd : directMatch "director" (normalizeTitle (jsLower p.title)) = true
    · rw [if_pos hd]
    · rw [if_neg hd]
      rw [founderCase_dir_none _ h2 h3]
      dsimp only
      rw [if_neg (by simp [variationMatch])]
      rw [if_pos (synonymMatch_dir _ h1)]
  · intro p h1
    have hg : ¬(jsLower p.title = "" ∨ jsLower p.title = "not specified") := by
      rintro (h | h) <;> rw [h] at h1
      · exact absurd h1 (by decide)
      · exact absurd h1 (by decide)
    constructor
    · simp only [hasMatchingJobTitle]
      rw [if_neg hg]
      rw [show normalizeTitle (jsLower "founder") = "founder" from by decide]
      rw [if_pos (show directMatch "founder" (normalizeTitle (jsLower p.title)) = true from by
        unfold directMatch; rw [h1]; rfl)]
    · simp only [hasMatchingJobTitle]
      rw [if_neg hg]
      rw [show normalizeTitle (jsLower "co-founder") = "co founder" from by decide]
      by_cases hd : directMatch "co founder" (normalizeTitle (jsLower p.title)) = true
      · rw [if_pos hd]
      · rw [if_neg hd]
        have hfc : founderCase "co founder" (normalizeTitle (jsLower p.title)) = some true := by
          unfold founderCase
          rw [if_pos (show (jsIncludes "co founder" "founder" ||
            jsIncludes (normalizeTitle (jsLower p.title)) "founder") = true from by
              rw [show jsIncludes "co founder" "founder" = true from by decide]; rfl)]
          rw [if_pos (by decide)]
          rw [h1]
        rw [hfc]

/-- Witness for the amended C5: concrete applications to a Head profile
with a director search and a Co-Founder profile with both founder
searches. -/
theorem claim_c5_amended_witness :
    hasMatchingJobTitle profileHeadAI "director" [] = true ∧
    hasMatchingJobTitle profileCoFounder "founder" [] = true ∧
    hasMatchingJobTitle profileCoFounder "co-founder" [] = true :=
  ⟨claim_c5_amended.1 profileHeadAI (by decide) (by decide) (by decide),
   (claim_c5_amended.2 profileCoFounder (by decide)).1,
   (claim_c5_amended.2 profileCoFounder (by decide)).2⟩

/-- Claim C6 fails on the code: with all earlier clauses failing (shown
by the first four conjuncts), the code accepts the profile because the
stoplist is applied to the search tokens only — the profile token `of`
survives and matches the search token `prof` — while the claimed
fallback, which drops stoplist words from both sides, rejects it. -/
theorem claim_c6_counterexample :
    directMatch (normalizeTitle (jsLower "prof")) (normalizeTitle (jsLower profileKop.title)) =
      false ∧
    founderCase (normalizeTitle (jsLower "prof")) (normalizeTitle (jsLower profileKop.title)) =
      none ∧
    variationMatch [] (normalizeTitle (jsLower profileKop.title)) = false ∧
    synonymMatch (normalizeTitle (jsLower "prof")) (normalizeTitle (jsLower profileKop.title)) =
      false ∧
    hasMatchingJobTitle profileKop "prof" [] = true ∧
    claimedTokenFallback (normalizeTitle (jsLower "prof"))
      (normalizeTitle (jsLower profileKop.title)) = false :=
  ⟨by decide, by decide, by decide, by decide, by decide, by decide⟩

/-- Claim C6 amended: when the guard passes and the direct, founder,
variation and synonym clauses all fail, the result is the token fallback,
which drops the stoplist words from the search tokens only (profile
tokens are kept) and succeeds exactly when some surviving search token is
a substring or superstring of some profile token. -/
theorem claim_c6_amended :
    ∀ (p : Profile) (s : String) (vars : List String),
      jsLower p.title ≠ "" →
      jsLower p.title ≠ "not specified" →
      directMatch (normalizeTitle (jsLower s)) (normalizeTitle (jsLower p.title)) = false →
      founderCase (normalizeTitle (jsLower s)) (normalizeTitle (jsLower p.title)) = none →
      variationMatch vars (normalizeTitle (jsLower p.title)) = false →
      synonymMatch (normalizeTitle (jsLower s)) (normalizeTitle (jsLower p.title)) = false →
      (hasMatchingJobTitle p s vars = true ↔
        ∃ w ∈ jsSplitWs (normalizeTitle (jsLower s)),
          stopWords.contains w = false ∧
          ∃ t ∈ jsSplitWs (normalizeTitle (jsLower p.title)),
            (jsIncludes t w || jsIncludes w t) = true) := by
  intro p s vars h1 h2 hd hf hv hs
  simp only [hasMatchingJobTitle]
  rw [if_neg (by rintro (h | h); exacts [h1 h, h2 h])]
  rw [if_neg (by rw [hd]; simp)]
  rw [hf]
  dsimp only
  rw [if_neg (by rw [hv]; simp)]
  rw [if_neg (by rw [hs]; simp)]
  unfold fallbackMatch
  simp only [decide_eq_true_eq]
  constructor
  · intro h
    obtain ⟨x, hx⟩ := List.length_pos_iff_exists_mem.mp h
    obtain ⟨hmem, hpred⟩ := List.mem_filter.mp hx
    rw [Bool.and_eq_true] at hpred
    obtain ⟨hstop, hany⟩ := hpred
    rw [Bool.not_eq_true'] at hstop
    obtain ⟨t, ht, hrel⟩ := List.any_eq_true.mp hany
    exact ⟨x, hmem, hstop, t, ht, hrel⟩
  · rintro ⟨w, hw, hstop, t, ht, hrel⟩
    apply List.length_pos_iff_exists_mem.mpr
    refine ⟨w, List.mem_filter.mpr ⟨hw, ?_⟩⟩
    rw [Bool.and_eq_true]
    exact ⟨by rw [Bool.not_eq_true', hstop], List.any_eq_true.mpr ⟨t, ht, hrel⟩⟩

/-- Witness for the amended C6: a concrete profile accepted through the
token fallback. -/
theorem claim_c6_amended_witness :
    hasMatchingJobTitle profileGhost "lead writer" [] = true := by
  have h := claim_c6_amended profileGhost "lead writer" []
    (by decide) (by decide) (by decide) (by decide) (by decide) (by decide)
  exact h.mpr ⟨"writer", by decide, by decide, "typewriter", by decide, by decide⟩

theorem chunksGo_flatten {α : Type} :
    ∀ (l : List α) (k : Nat) (cur : List α),
      (chunksGo k cur l).flatten = cur.reverse ++ l := by
  intro l
  induction l with
  | nil => intro k cur; simp [chunksGo]
  | cons x rest ih =>
    intro k cur
    cases k with
    | zero => simp [chunksGo, ih]
    | succ k => simp [chunksGo, ih]

theorem chunks5_flatten {α : Type} : ∀ l : List α, (chunks5 l).flatten = l := by
  intro l
  cases l with
  | nil => rfl
  | cons x rest => simp [chunks5, chunksGo_flatten]

theorem hubspotBatches_eq_map (crm : CrmClient) (ps : List Profile) :
    hubspotBatches crm ps = ps.map (annotateOne crm) := by
  unfold hubspotBatches
  rw [← List.map_flatten, chunks5_flatten]

theorem annotateOne_toProfile (crm : CrmClient) (p : Profile) :
    (annotateOne crm p).toProfile = p := by
  unfold annotateOne
  cases h : crm p.linkedinUrl with
  | ok o => cases o <;> rfl
  | error e => rfl

theorem checkHubSpot_true_eq_map (crm : CrmClient) (ps : List Profile) :
    checkHubSpotStatus true crm ps = ps.map (annotateOne crm) := by
  unfold checkHubSpotStatus
  by_cases h : ps = []
  · subst h; rfl
  · rw [if_neg (by rintro (hh | hh); exacts [Bool.noConfusion hh, h hh])]
    exact hubspotBatches_eq_map crm ps

theorem checkHubSpot_toProfile_map (hasToken : Bool) (crm : CrmClient) (ps : List Profile) :
    (checkHubSpotStatus hasToken crm ps).map (fun q => q.toProfile) = ps := by
  unfold checkHubSpotStatus
  split
  · rw [List.map_map]
    exact List.map_id ps
  · rw [hubspotBatches_eq_map, List.map_map]
    have hcomp : ((fun q : AnnotatedProfile => q.toProfile) ∘ annotateOne crm) = id := by
      funext p
      exact annotateOne_toProfile crm p
    rw [hcomp, List.map_id]

theorem checkHubSpot_length (hasToken : Bool) (crm : CrmClient) (ps : List Profile) :
    (checkHubSpotStatus hasToken crm ps).length = ps.length := by
  conv_rhs => rw [← checkHubSpot_toProfile_map hasToken crm ps]
  rw [List.length_map]

theorem checkHubSpot_get_toProfile (hasToken : Bool) (crm : CrmClient) (ps : List Profile)
    (i : Nat) (h : i < ps.length) (h2 : i < (checkHubSpotStatus hasToken crm ps).length) :
    ((checkHubSpotStatus hasToken crm ps).get ⟨i, h2⟩).toProfile = ps.get ⟨i, h⟩ := by
  have h3 : i < ((checkHubSpotStatus hasToken crm ps).map (fun q => q.toProfile)).length := by
    rw [List.length_map]; exact h2
  have step1 : ((checkHubSpotStatus hasToken crm ps).map (fun q => q.toProfile)).get ⟨i, h3⟩ =
      ((checkHubSpotStatus hasToken crm ps).get ⟨i, h2⟩).toProfile := List.get_map _
  have step2 := List.get_of_eq (checkHubSpot_toProfile_map hasToken crm ps) ⟨i, h3⟩
  rw [← step1]
  exact step2

theorem checkHubSpot_get_true (crm : CrmClient) (ps : List Profile)
    (i : Nat) (h : i < ps.length) (h2 : i < (checkHubSpotStatus true crm ps).length) :
    (checkHubSpotStatus true crm ps).get ⟨i, h2⟩ = annotateOne crm (ps.get ⟨i, h⟩) := by
  have step2 := List.get_of_eq (checkHubSpot_true_eq_map crm ps) ⟨i, h2⟩
  rw [step2, List.get_map]

/-- Claim C9: the dedup annotation is a pure frame extension — mapping
the annotated list back to its underlying profiles gives exactly the
input list, so length and order are preserved and every input field is
unchanged, the output gaining only the `inHubSpot` flag and the optional
contact id carried by `AnnotatedProfile`. -/
theorem claim_c9_frame :
    ∀ (hasToken : Bool) (crm : CrmClient) (ps : List Profile),
      (checkHubSpotStatus hasToken crm ps).map (fun q => q.toProfile) = ps ∧
      (checkHubSpotStatus hasToken crm ps).length = ps.length ∧
      ∀ (i : Nat) (h : i < ps.length) (h2 : i < (checkHubSpotStatus hasToken crm ps).length),
        ((checkHubSpotStatus hasToken crm ps).get ⟨i, h2⟩).toProfile = ps.get ⟨i, h⟩ :=
  fun hasToken crm ps =>
    ⟨checkHubSpot_toProfile_map hasToken crm ps,
     checkHubSpot_length hasToken crm ps,
     fun i h h2 => checkHubSpot_get_toProfile hasToken crm ps i h h2⟩

/-- Witness for C9 at a concrete CRM stub and profile list. -/
theorem claim_c9_frame_witness :
    ((checkHubSpotStatus true crmW [profileW1, profileW2]).get ⟨1, by decide⟩).toProfile =
      profileW2 :=
  (claim_c9_frame true crmW [profileW1, profileW2]).2.2 1 (by decide) (by decide)

/-- Claim C8: with a configured token, the dedup step annotates every
input profile in place — the output has the length of the input, each
output entry carries the unchanged input profile, a CRM hit marks
`inHubSpot := true` with the returned contact id, and a miss or a
collaborator error marks `inHubSpot := false` without aborting the
batch. -/
theorem claim_c8_dedup :
    ∀ (crm : CrmClient) (ps : List Profile),
      (checkHubSpotStatus true crm ps).length = ps.length ∧
      ∀ (i : Nat) (h : i < ps.length) (h2 : i < (checkHubSpotStatus true crm ps).length),
        ((checkHubSpotStatus true crm ps).get ⟨i, h2⟩).toProfile = ps.get ⟨i, h⟩ ∧
        (∀ cid : String, crm (ps.get ⟨i, h⟩).linkedinUrl = .ok (some cid) →
          ((checkHubSpotStatus true crm ps).get ⟨i, h2⟩).inHubSpot = true ∧
          ((checkHubSpotStatus true crm ps).get ⟨i, h2⟩).hubSpotContactId = some cid) ∧
        (crm (ps.get ⟨i, h⟩).linkedinUrl = .ok none →
          ((checkHubSpotStatus true crm ps).get ⟨i, h2⟩).inHubSpot = false) ∧
        (∀ e : Unit, crm (ps.get ⟨i, h⟩).linkedinUrl = .error e →
          ((checkHubSpotStatus true crm ps).get ⟨i, h2⟩).inHubSpot = false) := by
  intro crm ps
  refine ⟨checkHubSpot_length true crm ps, ?_⟩
  intro i h h2
  have key := checkHubSpot_get_true crm ps i h h2
  rw [key]
  refine ⟨annotateOne_toProfile crm _, ?_, ?_, ?_⟩
  · intro cid hc
    unfold annotateOne
    rw [hc]
    exact ⟨rfl, rfl⟩
  · intro hc
    unfold annotateOne
    rw [hc]
  · intro e hc
    unfold annotateOne
    rw [hc]

/-- Witness for C8: concrete hit, miss and error profiles under the CRM
stub. -/
theorem claim_c8_dedup_witness :
    ((checkHubSpotStatus true crmW [profileW1, profileW2, profileW3]).get
      ⟨0, by decide⟩).inHubSpot = true ∧
    ((checkHubSpotStatus true crmW [profileW1, profileW2, profileW3]).get
      ⟨0, by decide⟩).hubSpotContactId = some "42" ∧
    ((checkHubSpotStatus true crmW [profileW1, profileW2, profileW3]).get
      ⟨1, by decide⟩).inHubSpot = false ∧
    ((checkHubSpotStatus true crmW [profileW1, profileW2, profileW3]).get
      ⟨2, by decide⟩).inHubSpot = false := by
  obtain ⟨-, hpt⟩ := claim_c8_dedup crmW [profileW1, profileW2, profileW3]
  obtain ⟨-, hhit, -, -⟩ := hpt 0 (by decide) (by decide)
  obtain ⟨-, -, hmiss, -⟩ := hpt 1 (by decide) (by decide)
  obtain ⟨-, -, -, herr⟩ := hpt 2 (by decide) (by decide)
  have h0 := hhit "42" rfl
  exact ⟨h0.1, h0.2, hmiss rfl, herr () rfl⟩

theorem urlOk_false_of_bad (url : String)
    (h : jsIncludes url "/in/" = false ∨ jsIncludes url "/jobs/" = true ∨
      jsIncludes url "/company/" = true) :
    urlOk url = false := by
  unfold urlOk
  rcases h with h | h | h
  · cases hh : jsIncludes url "linkedin.com/in/" with
    | false => rfl
    | true =>
      exfalso
      have h1 : ("/in/" : String).data <:+: ("linkedin.com/in/" : String).data :=
        (jsIncludes_iff "linkedin.com/in/" "/in/").mp rfl
      have h2 := (jsIncludes_iff url "linkedin.com/in/").mp hh
      have h3 := (jsIncludes_iff url "/in/").mpr (h1.trans h2)
      rw [h3] at h
      exact Bool.noConfusion h
  · rw [h]; simp
  · rw [h]; simp

theorem pipeline_url_ok (rand : SearchResult → String) (company titleQ : String)
    (vars : List String) (rs : List SearchResult) :
    ∀ p ∈ searchPipeline rand company titleQ vars rs, urlOk p.linkedinUrl = true := by
  intro p hp
  unfold searchPipeline at hp
  have hp2 := (List.mem_filter.mp hp).1
  obtain ⟨r, hr, hre⟩ := List.mem_map.mp hp2
  unfold filterResults at hr
  have hru := (List.mem_filter.mp hr).2
  rw [← hre, extract_linkedinUrl]
  exact hru

/-- Claim C3: a search result whose URL lacks the `/in/` segment or
contains `/jobs/` or `/company/` is dropped by the URL filter before
extraction and no entry of the returned annotated list can carry its
URL — every returned profile URL passes the filter predicate, so the
discarded result never becomes a Profile in the output. -/
theorem claim_c3_urlFilter :
    ∀ (hasToken : Bool) (crm : CrmClient) (rand : SearchResult → String)
      (company titleQ : String) (vars : List String) (rs : List SearchResult)
      (r : SearchResult),
      r ∈ rs →
      (jsIncludes r.url "/in/" = false ∨ jsIncludes r.url "/jobs/" = true ∨
        jsIncludes r.url "/company/" = true) →
      r ∉ filterResults rs ∧
      ∀ q ∈ routeProfiles hasToken crm rand company titleQ vars rs,
        q.toProfile.linkedinUrl ≠ r.url := by
  intro hasToken crm rand company titleQ vars rs r _ hbad
  have hfalse := urlOk_false_of_bad r.url hbad
  constructor
  · intro hin
    unfold filterResults at hin
    have hh := (List.mem_filter.mp hin).2
    rw [hfalse] at hh
    exact Bool.noConfusion hh
  · intro q hq
    unfold routeProfiles at hq
    have hq2 : q.toProfile ∈ searchPipeline rand company titleQ vars rs := by
      have hmm := List.mem_map_of_mem (fun x : AnnotatedProfile => x.toProfile) hq
      rw [checkHubSpot_toProfile_map] at hmm
      exact hmm
    have hurl := pipeline_url_ok rand company titleQ vars rs _ hq2
    intro heq
    rw [heq, hfalse] at hurl
    exact Bool.noConfusion hurl

/-- Witness for C3: a concrete job-posting URL is excluded by the
filter. -/
theorem claim_c3_urlFilter_witness :
    badResult ∉ filterResults [badResult] :=
  (claim_c3_urlFilter true (fun _ => .error ()) (fun _ => "") "" "" [] [badResult] badResult
    (List.mem_singleton.mpr rfl) (Or.inr (Or.inl (by decide)))).1

/-- Claim C7 (intended computation): `extractBio`, as the spec and the
part_000 revision define it, always yields the first surviving sentence
cleaned, else the cleaned dash-to-pipe title segment, else the fixed
placeholder — a total cascade, so the summary value exists for every
input.  The current route revision dropped the summary field from the
returned profile, which the code-bug entry records. -/
theorem claim_c7_bioCascade :
    (∀ (text highlights pageTitle : String),
      (∃ s rest,
        ((splitSentences (highlights ++ " " ++ text)).map jsTrimS).filter goodSentence =
          s :: rest ∧
        extractBio text highlights pageTitle = cleanExtractedText s) ∨
      (((splitSentences (highlights ++ " " ++ text)).map jsTrimS).filter goodSentence = [] ∧
        ∃ g, dashPipeGo pageTitle.data = some g ∧
          extractBio text highlights pageTitle = cleanExtractedText ⟨g⟩) ∨
      (((splitSentences (highlights ++ " " ++ text)).map jsTrimS).filter goodSentence = [] ∧
        dashPipeGo pageTitle.data = none ∧
        extractBio text highlights pageTitle = "LinkedIn profile (bio not available)")) ∧
    extractBio "" "" "" = "LinkedIn profile (bio not available)" := by
  constructor
  · intro text hl pt
    simp only [extractBio]
    cases hs : ((splitSentences (hl ++ " " ++ text)).map jsTrimS).filter goodSentence with
    | cons s rest =>
      left
      exact ⟨s, rest, rfl, rfl⟩
    | nil =>
      right
      cases hd : dashPipeGo pt.data with
      | some g =>
        left
        exact ⟨rfl, g, rfl, rfl⟩
      | none =>
        right
        exact ⟨rfl, rfl, rfl⟩
  · rfl
